import Mathlib

/-!
Verification development for the reconciliation core and the AWS SCIM client
of the idp-scim-sync repository.

The repository's sources under scrutiny are:
* the reconciliation tests `Test_groupsDifferences`, `Test_usersDifferences`,
  `Test_groupsUsersDifferences` (package `core`);
* the SCIM provider `SCIMProvider` (package `scim`), a caller of the content
  hasher `hash.Get`;
* the HTTP client `AWSSCIMService` (package `aws`, file `pkg/aws/scim.go`).

The reconciliation core itself (`groupsDifferences`, `usersDifferences`,
`groupsUsersDifferences` in package `core`) and the content hasher
(`hash.Get` in package `internal/hash`) are not part of the available
sources; only their tests and callers are.  Those functions are modelled
here from the specification, and every behaviour that the available tests
pin down (via `reflect.DeepEqual` against fully explicit expected values)
is kept exactly as the tests demand.  Functions of `pkg/aws/scim.go` are
embedded directly from their Go source.
-/

namespace IdpScimSync

/-! ## Data model

Mirrors `internal/model`: `Group`, `User` (with `Name`), `GroupUsers`,
`GroupsResult`, `UsersResult`, `GroupsUsersResult`.  Each carries a
`hashCode` fingerprint field; the Go zero value (empty fingerprint) is
modelled as `none`. -/

/-- Fingerprint of a `Group`: its semantic fields `(id, name, email)`. -/
structure GroupFp where
  id : String
  name : String
  email : String
deriving DecidableEq

/-- Fingerprint of a `User`: all semantic fields
`(id, givenName, familyName, displayName, email, active)`. -/
structure UserFp where
  id : String
  givenName : String
  familyName : String
  displayName : String
  email : String
  active : Bool
deriving DecidableEq

/-- Fingerprint of a `GroupUsers` entry: the group's fingerprint together
with the set of member ids (canonicalized as a finite set, so that the
member accumulation order cannot influence it). -/
structure GroupUsersFp where
  group : GroupFp
  memberIds : Finset String
deriving DecidableEq

/-- Mirrors `model.Group`: `{ID, Name, Email, HashCode}`. -/
structure Group where
  id : String
  name : String
  email : String
  hashCode : Option GroupFp := none
deriving DecidableEq

/-- Mirrors `model.Name`: `{FamilyName, GivenName}`. -/
structure Name where
  familyName : String
  givenName : String
deriving DecidableEq

/-- Mirrors `model.User`: `{ID, Name, DisplayName, Active, Email, HashCode}`. -/
structure User where
  id : String
  name : Name
  displayName : String := ""
  active : Bool := false
  email : String
  hashCode : Option UserFp := none
deriving DecidableEq

/-- Mirrors `model.GroupUsers`: `{Items, Group, Resources, HashCode}` — one
entry per group, holding the member list known for that group. -/
structure GroupUsers where
  items : Nat
  group : Group
  resources : List User
  hashCode : Option GroupUsersFp := none
deriving DecidableEq

/-- Mirrors `model.GroupsResult`: `{Items, Resources, HashCode}`. -/
structure GroupsResult where
  items : Nat
  resources : List Group
  hashCode : Option (List GroupFp) := none
deriving DecidableEq

/-- Mirrors `model.UsersResult`: `{Items, Resources, HashCode}`. -/
structure UsersResult where
  items : Nat
  resources : List User
  hashCode : Option (List UserFp) := none
deriving DecidableEq

/-- Mirrors `model.GroupsUsersResult`: `{Items, Resources, HashCode}`. -/
structure GroupsUsersResult where
  items : Nat
  resources : List GroupUsers
  hashCode : Option (Finset GroupUsersFp) := none
deriving DecidableEq

/-! ## Content hasher

Modelled from the spec: `hash.Get` (package `internal/hash`, not in the
available sources) computes "a deterministic fingerprint of an entity's
semantic fields (excluding the fingerprint field itself)"; it "must be
deterministic across repeated calls on structurally-equal inputs regardless
of construction order (e.g., insertion order of a member set must not
affect the membership fingerprint — sort or otherwise canonicalize before
hashing)" and collisions are treated as never happening.  The model
therefore takes the fingerprint to be the (injective) tuple of semantic
fields, with the member-id set of a membership entry canonicalized as a
finite set. -/

/-- Modelled from the spec: `hash.Get` on a `Group` — covers `{id, name,
email}` and ignores `hashCode`. -/
def hashGroup (g : Group) : GroupFp :=
  { id := g.id, name := g.name, email := g.email }

/-- Modelled from the spec: `hash.Get` on a `User` — covers all fields
except `hashCode`. -/
def hashUser (u : User) : UserFp :=
  { id := u.id, givenName := u.name.givenName, familyName := u.name.familyName,
    displayName := u.displayName, email := u.email, active := u.active }

/-- Modelled from the spec: `hash.Get` on a `GroupUsers` entry — covers the
group and the member id set, canonicalized before hashing. -/
def hashGroupUsers (gu : GroupUsers) : GroupUsersFp :=
  { group := hashGroup gu.group, memberIds := (gu.resources.map User.id).toFinset }

/-- Modelled from the spec: `hash.Get` on a `GroupsResult` — covers the
contained sequence. -/
def hashGroupsResult (r : GroupsResult) : List GroupFp :=
  r.resources.map hashGroup

/-- Modelled from the spec: `hash.Get` on a `UsersResult` — covers the
contained sequence. -/
def hashUsersResult (r : UsersResult) : List UserFp :=
  r.resources.map hashUser

/-- Modelled from the spec: `hash.Get` on a `GroupsUsersResult` — covers the
contained entries, canonicalized so that the accumulation order of the
per-group entries (Go map iteration order in `GetUsersAndGroupsUsers`)
cannot influence the fingerprint. -/
def hashGroupsUsersResult (r : GroupsUsersResult) : Finset GroupUsersFp :=
  (r.resources.map hashGroupUsers).toFinset

/-! ## Group / User reconcilers

Modelled from the spec (§4.2/§4.3): `groupsDifferences` and
`usersDifferences` (package `core`, implementation not in the available
sources; their tests `Test_groupsDifferences` / `Test_usersDifferences`
are).  The previous snapshot is indexed by natural key (`email`); each
current record is appended to `create` (key not found), to `equal` (the
previous copy, when fingerprints agree) or to `update` (the current copy,
when fingerprints differ); unconsumed previous records are appended to
`delete` in previous-scan order.  The natural key of a group is pinned by
`Test_groupsDifferences` to the group's `Name`: the case named
"1 equals, 1 update" changes a group's email and still expects an update,
and the case named "1 update, change the ID" changes its id, so the only
field the matching can key on is the name.  For users the tests never
separate the candidate keys (matched users always agree on both id and
email), so the spec's natural key — the user's `Email` — is kept.  The
tests compare outputs with
`reflect.DeepEqual` against expected aggregates whose `HashCode` is the Go
zero value, so the output aggregates carry an unset fingerprint and
`Items` equal to the sequence length. -/

/-- Scan of the current snapshot against the previous one, producing the
`(create, update, equal)` record lists (spec §4.2 step 2). -/
def diffScan {α β : Type} [DecidableEq β] (key : α → String) (h : α → β) :
    List α → List α → List α × List α × List α
  | [], _ => ([], [], [])
  | g :: rest, prev =>
    let r := diffScan key h rest prev
    match prev.find? (fun p => key p == key g) with
    | none => (g :: r.1, r.2.1, r.2.2)
    | some p => if h p = h g then (r.1, r.2.1, p :: r.2.2) else (r.1, g :: r.2.1, r.2.2)

/-- Unconsumed previous records: those whose natural key no current record
matches (spec §4.2 step 3), in previous-scan order. -/
def diffDelete {α : Type} (key : α → String) (cur prev : List α) : List α :=
  prev.filter (fun p => ! cur.any (fun g => key g == key p))

/-- Wraps a record list as a `GroupsResult` output partition: `Items` is
the sequence length and `HashCode` is left at the zero value, as the
expected values of `Test_groupsDifferences` demand. -/
def mkGroupsResult (l : List Group) : GroupsResult :=
  { items := l.length, resources := l, hashCode := none }

/-- Wraps a record list as a `UsersResult` output partition. -/
def mkUsersResult (l : List User) : UsersResult :=
  { items := l.length, resources := l, hashCode := none }

/-- Modelled from the spec: `core.groupsDifferences(idp, state)` returning
`(create, update, equal, delete)`; the natural key is the group's name, as
pinned by `Test_groupsDifferences`. -/
def groupsDifferences (idp state : GroupsResult) :
    GroupsResult × GroupsResult × GroupsResult × GroupsResult :=
  let r := diffScan Group.name hashGroup idp.resources state.resources
  (mkGroupsResult r.1, mkGroupsResult r.2.1, mkGroupsResult r.2.2,
    mkGroupsResult (diffDelete Group.name idp.resources state.resources))

/-- Modelled from the spec: `core.usersDifferences(idp, state)` returning
`(create, update, equal, delete)`. -/
def usersDifferences (idp state : UsersResult) :
    UsersResult × UsersResult × UsersResult × UsersResult :=
  let r := diffScan User.email hashUser idp.resources state.resources
  (mkUsersResult r.1, mkUsersResult r.2.1, mkUsersResult r.2.2,
    mkUsersResult (diffDelete User.email idp.resources state.resources))

/-! ## Membership reconciler

Modelled from the spec (§4.4): `groupsUsersDifferences` (package `core`,
implementation not in the available sources; its test
`Test_groupsUsersDifferences` is).  Groups are matched by `id`; per
matched group the member-id set difference is computed, and a group
contributes an entry to a partition only if that partition's member subset
is non-empty.  Entries rebuilt for a partition carry `Items` equal to
their member subset length and an unset `HashCode`, as the expected values
of `Test_groupsUsersDifferences` demand. -/

/-- Membership test by member id following the spec's member-id set
difference. -/
def memberIn (us : List User) (u : User) : Bool :=
  us.any (fun v => v.id == u.id)

/-- Builds a per-group partition entry carrying exactly its relevant member
subset. -/
def mkGroupUsers (g : Group) (us : List User) : GroupUsers :=
  { items := us.length, group := g, resources := us, hashCode := none }

/-- Scan of the current membership snapshot against the previous one,
producing the `(create, equal)` entry lists (spec §4.4 step 2). -/
def guScan : List GroupUsers → List GroupUsers → List GroupUsers × List GroupUsers
  | [], _ => ([], [])
  | m :: rest, prev =>
    let r := guScan rest prev
    match prev.find? (fun p => p.group.id == m.group.id) with
    | none =>
      (if m.resources.isEmpty then r.1 else mkGroupUsers m.group m.resources :: r.1, r.2)
    | some p =>
      let cs := m.resources.filter (fun u => ! memberIn p.resources u)
      let es := m.resources.filter (fun u => memberIn p.resources u)
      ((if cs.isEmpty then r.1 else mkGroupUsers m.group cs :: r.1),
       (if es.isEmpty then r.2 else mkGroupUsers m.group es :: r.2))

/-- Leftover members of previous membership entries (spec §4.4 step 3), in
previous-scan order. -/
def guDelete (cur : List GroupUsers) : List GroupUsers → List GroupUsers
  | [] => []
  | p :: rest =>
    let r := guDelete cur rest
    match cur.find? (fun m => m.group.id == p.group.id) with
    | none => if p.resources.isEmpty then r else mkGroupUsers p.group p.resources :: r
    | some m =>
      let ds := p.resources.filter (fun u => ! memberIn m.resources u)
      if ds.isEmpty then r else mkGroupUsers p.group ds :: r

/-- Wraps an entry list as a `GroupsUsersResult` output partition. -/
def mkGroupsUsersResult (l : List GroupUsers) : GroupsUsersResult :=
  { items := l.length, resources := l, hashCode := none }

/-- Modelled from the spec: `core.groupsUsersDifferences(idp, state)`
returning `(create, equal, delete)` — no update bucket. -/
def groupsUsersDifferences (idp state : GroupsUsersResult) :
    GroupsUsersResult × GroupsUsersResult × GroupsUsersResult :=
  let r := guScan idp.resources state.resources
  (mkGroupsUsersResult r.1, mkGroupsUsersResult r.2,
    mkGroupsUsersResult (guDelete idp.resources state.resources))

/-! ## Key-counting helpers for the partition statements -/

/-- Number of records of `l` whose natural key is `k`. -/
def countKey {α : Type} (key : α → String) (l : List α) (k : String) : Nat :=
  (l.filter (fun x => key x == k)).length

/-- A snapshot is valid when its natural keys are pairwise distinct
(spec §7). -/
def uniqueKeys {α : Type} (key : α → String) (l : List α) : Prop :=
  l.Pairwise (fun a b => key a ≠ key b)

instance {α : Type} (key : α → String) (l : List α) : Decidable (uniqueKeys key l) :=
  inferInstanceAs (Decidable (l.Pairwise _))

/-! ## Lemmas about the scan and delete passes -/

section DiffLemmas

variable {α β : Type} [DecidableEq β] (key : α → String) (h : α → β)

theorem countKey_nil (k : String) : countKey key [] k = 0 := rfl

theorem countKey_cons (a : α) (l : List α) (k : String) :
    countKey key (a :: l) k = (if key a = k then 1 else 0) + countKey key l k := by
  by_cases hk : key a = k <;>
    simp [countKey, List.filter_cons, hk, Nat.add_comm]

theorem countKey_eq_zero (l : List α) (k : String) (hall : ∀ a ∈ l, key a ≠ k) :
    countKey key l k = 0 := by
  induction l with
  | nil => rfl
  | cons a l ih =>
    rw [countKey_cons]
    have ha : key a ≠ k := hall a (List.mem_cons_self a l)
    have h0 := ih fun x hx => hall x (List.mem_cons_of_mem a hx)
    simp only [ha, if_false]
    omega

theorem countKey_eq_one (l : List α) (a : α) (hu : uniqueKeys key l) (ha : a ∈ l) :
    countKey key l (key a) = 1 := by
  induction l with
  | nil => cases ha
  | cons b l ih =>
    simp only [uniqueKeys, List.pairwise_cons] at hu
    rw [countKey_cons]
    rcases List.mem_cons.mp ha with rfl | hmem
    · have h0 : countKey key l (key a) = 0 :=
        countKey_eq_zero key l (key a) fun x hx => (hu.1 x hx).symm
      simp [h0]
    · have hb : key b ≠ key a := hu.1 a hmem
      simp only [hb, if_false]
      have := ih hu.2 hmem
      omega

theorem countKey_pos_of_mem (l : List α) (a : α) (ha : a ∈ l) :
    0 < countKey key l (key a) := by
  induction l with
  | nil => cases ha
  | cons b l ih =>
    rw [countKey_cons]
    rcases List.mem_cons.mp ha with rfl | hmem
    · simp
    · have := ih hmem
      omega

theorem find?_eq_some_self (l : List α) (p : α) (k : String)
    (hu : uniqueKeys key l) (hp : p ∈ l) (hk : key p = k) :
    l.find? (fun q => key q == k) = some p := by
  induction l with
  | nil => cases hp
  | cons b l ih =>
    simp only [uniqueKeys, List.pairwise_cons] at hu
    rcases List.mem_cons.mp hp with rfl | hmem
    · exact List.find?_cons_of_pos l (by simp [hk])
    · have hb : key b ≠ key p := hu.1 p hmem
      rw [List.find?_cons_of_neg]
      · exact ih hu.2 hmem
      · simp only [beq_iff_eq]
        rw [← hk]
        exact hb

theorem diffScan_nil (prev : List α) : diffScan key h [] prev = ([], [], []) := rfl

theorem diffScan_cons_none (g : α) (rest prev : List α)
    (hfind : prev.find? (fun p => key p == key g) = none) :
    diffScan key h (g :: rest) prev =
      (g :: (diffScan key h rest prev).1, (diffScan key h rest prev).2.1,
        (diffScan key h rest prev).2.2) := by
  simp [diffScan, hfind]

theorem diffScan_cons_eq (g p : α) (rest prev : List α)
    (hfind : prev.find? (fun q => key q == key g) = some p) (heq : h p = h g) :
    diffScan key h (g :: rest) prev =
      ((diffScan key h rest prev).1, (diffScan key h rest prev).2.1,
        p :: (diffScan key h rest prev).2.2) := by
  simp [diffScan, hfind, heq]

theorem diffScan_cons_ne (g p : α) (rest prev : List α)
    (hfind : prev.find? (fun q => key q == key g) = some p) (hne : h p ≠ h g) :
    diffScan key h (g :: rest) prev =
      ((diffScan key h rest prev).1, g :: (diffScan key h rest prev).2.1,
        (diffScan key h rest prev).2.2) := by
  simp [diffScan, hfind, hne]

/-- Partition-count invariant of the scan: for every key value, the three
output lists together contain exactly as many records with that key as the
current snapshot does. -/
theorem diffScan_count (cur prev : List α) (k : String) :
    countKey key (diffScan key h cur prev).1 k +
      countKey key (diffScan key h cur prev).2.1 k +
      countKey key (diffScan key h cur prev).2.2 k = countKey key cur k := by
  induction cur with
  | nil => simp [diffScan_nil, countKey_nil]
  | cons g rest ih =>
    rcases hfind : prev.find? (fun p => key p == key g) with _ | p
    · rw [diffScan_cons_none key h g rest prev hfind]
      dsimp only
      simp only [countKey_cons]
      omega
    · have hkey : key p = key g := by
        have := List.find?_some hfind
        simpa using this
      by_cases heq : h p = h g
      · rw [diffScan_cons_eq key h g p rest prev hfind heq]
        dsimp only
        simp only [countKey_cons, hkey]
        omega
      · rw [diffScan_cons_ne key h g p rest prev hfind heq]
        dsimp only
        simp only [countKey_cons]
        omega

/-- Records emitted by the scan all carry keys of current-snapshot records. -/
theorem diffScan_count_zero (cur prev : List α) (k : String)
    (hk : ∀ g ∈ cur, key g ≠ k) :
    countKey key (diffScan key h cur prev).1 k = 0 ∧
      countKey key (diffScan key h cur prev).2.1 k = 0 ∧
      countKey key (diffScan key h cur prev).2.2 k = 0 := by
  have hcur : countKey key cur k = 0 := countKey_eq_zero key cur k hk
  have := diffScan_count key h cur prev k
  omega

theorem diffDelete_count_zero (cur prev : List α) (g : α) (hg : g ∈ cur) :
    countKey key (diffDelete key cur prev) (key g) = 0 := by
  apply countKey_eq_zero
  intro p hp hk
  rw [diffDelete, List.mem_filter] at hp
  have : ¬ (cur.any fun q => key q == key p) = true := by
    simpa using hp.2
  exact this (List.any_eq_true.mpr ⟨g, hg, by simp [hk]⟩)

theorem diffDelete_count_unmatched (cur prev : List α) (k : String)
    (hk : ∀ g ∈ cur, key g ≠ k) :
    countKey key (diffDelete key cur prev) k = countKey key prev k := by
  induction prev with
  | nil => rfl
  | cons p rest ih =>
    by_cases hpk : key p = k
    · have hfilter : (cur.any fun q => key q == key p) = false := by
        rw [List.any_eq_false]
        intro q hq
        simp [hpk ▸ hk q hq]
      rw [diffDelete, List.filter_cons]
      simp only [hfilter, Bool.not_false, if_pos]
      rw [countKey_cons, countKey_cons]
      rw [diffDelete] at ih
      omega
    · rw [diffDelete, List.filter_cons]
      rw [countKey_cons]
      simp only [hpk, if_false]
      rw [diffDelete] at ih
      by_cases hany : (cur.any fun q => key q == key p) = true
      · simp only [hany, Bool.not_true, if_neg, Bool.false_eq_true, not_false_iff]
        omega
      · simp only [Bool.not_eq_true] at hany
        simp only [hany, Bool.not_false, if_pos]
        rw [countKey_cons]
        simp only [hpk, if_false]
        omega

/-- A current record with a key-match in the previous snapshot whose
fingerprint differs ends up in the update list. -/
theorem mem_update_of_changed (cur prev : List α) (g p : α)
    (hu : uniqueKeys key prev) (hg : g ∈ cur) (hp : p ∈ prev)
    (hk : key p = key g) (hne : h p ≠ h g) :
    g ∈ (diffScan key h cur prev).2.1 := by
  induction cur with
  | nil => cases hg
  | cons b rest ih =>
    rcases List.mem_cons.mp hg with rfl | hmem
    · have hfind := find?_eq_some_self key prev p (key g) hu hp hk
      rw [diffScan_cons_ne key h g p rest prev hfind hne]
      dsimp only
      exact List.mem_cons_self g _
    · rcases hfind : prev.find? (fun q => key q == key b) with _ | q
      · rw [diffScan_cons_none key h b rest prev hfind]
        dsimp only
        exact ih hmem
      · by_cases heq : h q = h b
        · rw [diffScan_cons_eq key h b q rest prev hfind heq]
          dsimp only
          exact ih hmem
        · rw [diffScan_cons_ne key h b q rest prev hfind heq]
          dsimp only
          exact List.mem_cons_of_mem b (ih hmem)

/-- Scanning a snapshot whose records all find themselves in the previous
index puts everything in the equal list. -/
theorem diffScan_self (cur prev : List α)
    (hfind : ∀ g ∈ cur, prev.find? (fun q => key q == key g) = some g) :
    diffScan key h cur prev = ([], [], cur) := by
  induction cur with
  | nil => rfl
  | cons g rest ih =>
    rw [diffScan_cons_eq key h g g rest prev (hfind g (List.mem_cons_self g rest)) rfl]
    rw [ih fun x hx => hfind x (List.mem_cons_of_mem g hx)]

/-- The delete pass is empty when every previous key is matched by a
current record. -/
theorem diffDelete_eq_nil (cur prev : List α)
    (hall : ∀ p ∈ prev, ∃ g ∈ cur, key g = key p) :
    diffDelete key cur prev = [] := by
  rw [diffDelete, List.filter_eq_nil_iff]
  intro p hp
  obtain ⟨g, hg, hk⟩ := hall p hp
  have hany : (cur.any fun q => key q == key p) = true :=
    List.any_eq_true.mpr ⟨g, hg, by simp [hk]⟩
  simp [hany]

end DiffLemmas

/-! ## Lemmas about the membership scan and delete passes -/

theorem memberIn_self (us : List User) (u : User) (hu : u ∈ us) :
    memberIn us u = true := by
  rw [memberIn, List.any_eq_true]
  exact ⟨u, hu, by simp⟩

theorem filter_not_memberIn_self (us : List User) :
    us.filter (fun u => ! memberIn us u) = [] := by
  rw [List.filter_eq_nil_iff]
  intro u hu
  simp [memberIn_self us u hu]

theorem filter_memberIn_self (us : List User) :
    us.filter (fun u => memberIn us u) = us := by
  rw [List.filter_eq_self]
  intro u hu
  exact memberIn_self us u hu

theorem guScan_nil (prev : List GroupUsers) : guScan [] prev = ([], []) := rfl

theorem guScan_cons_none (m : GroupUsers) (rest prev : List GroupUsers)
    (hfind : prev.find? (fun p => p.group.id == m.group.id) = none) :
    guScan (m :: rest) prev =
      (if m.resources.isEmpty then (guScan rest prev).1
        else mkGroupUsers m.group m.resources :: (guScan rest prev).1,
       (guScan rest prev).2) := by
  simp [guScan, hfind]

theorem guScan_cons_some (m p : GroupUsers) (rest prev : List GroupUsers)
    (hfind : prev.find? (fun q => q.group.id == m.group.id) = some p) :
    guScan (m :: rest) prev =
      (if (m.resources.filter (fun u => ! memberIn p.resources u)).isEmpty
        then (guScan rest prev).1
        else mkGroupUsers m.group (m.resources.filter (fun u => ! memberIn p.resources u)) ::
          (guScan rest prev).1,
       if (m.resources.filter (fun u => memberIn p.resources u)).isEmpty
        then (guScan rest prev).2
        else mkGroupUsers m.group (m.resources.filter (fun u => memberIn p.resources u)) ::
          (guScan rest prev).2) := by
  simp [guScan, hfind]

theorem guDelete_nil (cur : List GroupUsers) : guDelete cur [] = [] := rfl

theorem guDelete_cons_none (p : GroupUsers) (rest cur : List GroupUsers)
    (hfind : cur.find? (fun m => m.group.id == p.group.id) = none) :
    guDelete cur (p :: rest) =
      (if p.resources.isEmpty then guDelete cur rest
        else mkGroupUsers p.group p.resources :: guDelete cur rest) := by
  simp [guDelete, hfind]

theorem guDelete_cons_some (p m : GroupUsers) (rest cur : List GroupUsers)
    (hfind : cur.find? (fun q => q.group.id == p.group.id) = some m) :
    guDelete cur (p :: rest) =
      (if (p.resources.filter (fun u => ! memberIn m.resources u)).isEmpty
        then guDelete cur rest
        else mkGroupUsers p.group (p.resources.filter (fun u => ! memberIn m.resources u)) ::
          guDelete cur rest) := by
  simp [guDelete, hfind]

/-- Every entry emitted into the membership create list carries a non-empty
member subset. -/
theorem guScan_create_nonempty (cur prev : List GroupUsers) :
    ∀ e ∈ (guScan cur prev).1, e.resources ≠ [] := by
  induction cur with
  | nil => intro e he; cases he
  | cons m rest ih =>
    intro e he
    rcases hfind : prev.find? (fun p => p.group.id == m.group.id) with _ | p
    · rw [guScan_cons_none m rest prev hfind] at he
      dsimp only at he
      rcases hemp : m.resources.isEmpty with _ | _
      · rw [hemp, if_neg Bool.false_ne_true] at he
        rcases List.mem_cons.mp he with rfl | hmem
        · exact List.isEmpty_eq_false.mp hemp
        · exact ih e hmem
      · rw [hemp, if_pos rfl] at he
        exact ih e he
    · rw [guScan_cons_some m p rest prev hfind] at he
      dsimp only at he
      rcases hemp : (m.resources.filter (fun u => ! memberIn p.resources u)).isEmpty with _ | _
      · rw [hemp, if_neg Bool.false_ne_true] at he
        rcases List.mem_cons.mp he with rfl | hmem
        · exact List.isEmpty_eq_false.mp hemp
        · exact ih e hmem
      · rw [hemp, if_pos rfl] at he
        exact ih e he

/-- Every entry emitted into the membership equal list carries a non-empty
member subset. -/
theorem guScan_equal_nonempty (cur prev : List GroupUsers) :
    ∀ e ∈ (guScan cur prev).2, e.resources ≠ [] := by
  induction cur with
  | nil => intro e he; cases he
  | cons m rest ih =>
    intro e he
    rcases hfind : prev.find? (fun p => p.group.id == m.group.id) with _ | p
    · rw [guScan_cons_none m rest prev hfind] at he
      dsimp only at he
      exact ih e he
    · rw [guScan_cons_some m p rest prev hfind] at he
      dsimp only at he
      rcases hemp : (m.resources.filter (fun u => memberIn p.resources u)).isEmpty with _ | _
      · rw [hemp, if_neg Bool.false_ne_true] at he
        rcases List.mem_cons.mp he with rfl | hmem
        · exact List.isEmpty_eq_false.mp hemp
        · exact ih e hmem
      · rw [hemp, if_pos rfl] at he
        exact ih e he

/-- Every entry emitted into the membership delete list carries a non-empty
member subset. -/
theorem guDelete_nonempty (cur prev : List GroupUsers) :
    ∀ e ∈ guDelete cur prev, e.resources ≠ [] := by
  induction prev with
  | nil => intro e he; cases he
  | cons p rest ih =>
    intro e he
    rcases hfind : cur.find? (fun m => m.group.id == p.group.id) with _ | m
    · rw [guDelete_cons_none p rest cur hfind] at he
      rcases hemp : p.resources.isEmpty with _ | _
      · rw [hemp, if_neg Bool.false_ne_true] at he
        rcases List.mem_cons.mp he with rfl | hmem
        · exact List.isEmpty_eq_false.mp hemp
        · exact ih e hmem
      · rw [hemp, if_pos rfl] at he
        exact ih e he
    · rw [guDelete_cons_some p m rest cur hfind] at he
      rcases hemp : (p.resources.filter (fun u => ! memberIn m.resources u)).isEmpty with _ | _
      · rw [hemp, if_neg Bool.false_ne_true] at he
        rcases List.mem_cons.mp he with rfl | hmem
        · exact List.isEmpty_eq_false.mp hemp
        · exact ih e hmem
      · rw [hemp, if_pos rfl] at he
        exact ih e he

/-- Scanning a membership snapshot whose entries all find themselves in the
previous index reproduces the snapshot in the equal list. -/
theorem guScan_self (cur prev : List GroupUsers)
    (hfind : ∀ m ∈ cur, prev.find? (fun p => p.group.id == m.group.id) = some m)
    (hwf : ∀ m ∈ cur, m.items = m.resources.length ∧ m.hashCode = none ∧ m.resources ≠ []) :
    guScan cur prev = ([], cur) := by
  induction cur with
  | nil => rfl
  | cons m rest ih =>
    obtain ⟨hitems, hhash, hne⟩ := hwf m (List.mem_cons_self m rest)
    have hmk : mkGroupUsers m.group m.resources = m := by
      obtain ⟨i, g, r, c⟩ := m
      simp only at hitems hhash
      simp only [mkGroupUsers]
      rw [hitems, hhash]
    rw [guScan_cons_some m m rest prev (hfind m (List.mem_cons_self m rest))]
    rw [filter_not_memberIn_self, filter_memberIn_self]
    rw [ih (fun x hx => hfind x (List.mem_cons_of_mem m hx))
          (fun x hx => hwf x (List.mem_cons_of_mem m hx))]
    simp [List.isEmpty_iff, hne, hmk]

/-- The membership delete pass is empty when every previous entry finds an
identical entry in the current index. -/
theorem guDelete_self (cur prev : List GroupUsers)
    (hfind : ∀ p ∈ prev, cur.find? (fun m => m.group.id == p.group.id) = some p) :
    guDelete cur prev = [] := by
  induction prev with
  | nil => rfl
  | cons p rest ih =>
    rw [guDelete_cons_some p p rest cur (hfind p (List.mem_cons_self p rest))]
    rw [filter_not_memberIn_self]
    simp [ih fun x hx => hfind x (List.mem_cons_of_mem p hx)]

/-! ## AWS SCIM client (`pkg/aws/scim.go`)

Direct embedding of the request-construction and validation logic of
`AWSSCIMService`.  The Go standard library's `path.Join` / `path.Clean`
(used for `reqUrl.Path`) are embedded below over character lists. -/

/-- Split a character list into its slash-separated components. -/
def splitOnSlash : List Char → List (List Char)
  | [] => [[]]
  | c :: rest =>
    if c = '/' then [] :: splitOnSlash rest
    else
      match splitOnSlash rest with
      | [] => [[c]]
      | g :: gs => (c :: g) :: gs

/-- Component processing of Go's `path.Clean`: empty and `.` components are
dropped; `..` pops the previous component when one is available, is dropped
at the root of a rooted path, and is kept in front of an unrooted path.
The accumulator holds the output components in reverse. -/
def cleanComps (rooted : Bool) : List (List Char) → List (List Char) → List (List Char)
  | acc, [] => acc.reverse
  | acc, c :: rest =>
    if c = [] ∨ c = ['.'] then cleanComps rooted acc rest
    else if c = ['.', '.'] then
      match acc with
      | top :: acc2 =>
        if top = ['.', '.'] then cleanComps rooted (c :: top :: acc2) rest
        else cleanComps rooted acc2 rest
      | [] => if rooted then cleanComps rooted [] rest else cleanComps rooted [c] rest
    else cleanComps rooted (c :: acc) rest

/-- Joins components with slashes (the inverse of `splitOnSlash` on
slash-free non-empty components). -/
def joinComps : List (List Char) → List Char
  | [] => []
  | [c] => c
  | c :: rest => c ++ '/' :: joinComps rest

/-- Embeds Go's `path.Clean` over the characters of a path. -/
def goPathCleanL (s : List Char) : List Char :=
  match s with
  | [] => ['.']
  | c :: _ =>
    let rooted := c = '/'
    let comps := cleanComps rooted [] (splitOnSlash s)
    if comps = [] then (if rooted then ['/'] else ['.'])
    else (if rooted then ['/'] else []) ++ joinComps comps

/-- Embeds Go's `path.Clean` on strings. -/
def goPathClean (s : String) : String :=
  String.mk (goPathCleanL s.data)

/-- Embeds Go's `path.Join` for the two-argument calls made by
`pkg/aws/scim.go`: empty elements are skipped before joining with a slash,
and the result is cleaned; the join of two empty strings is empty. -/
def goPathJoin (a b : String) : String :=
  if a = "" then (if b = "" then "" else goPathClean b)
  else goPathClean (a ++ "/" ++ b)

/-- Errors of `pkg/aws/scim.go` (its exported `Err...` variables). -/
inductive AwsErr where
  | urlEmpty
  | displayNameEmpty
  | givenNameEmpty
  | familyNameEmpty
  | emailsTooMany
  | createGroupRequestEmpty
  | createUserRequestEmpty
  | patchGroupRequestEmpty
  | groupIDEmpty
  | userIDEmpty
  | patchUserRequestEmpty
  | putUserRequestEmpty
deriving DecidableEq

/-- Mirrors the `aws.Name` fields read by `scim.go`. -/
structure AwsName where
  familyName : String
  givenName : String
deriving DecidableEq

/-- Mirrors the `aws.Email` fields read by `scim.go`. -/
structure AwsEmail where
  value : String
  type : String
  primary : Bool
deriving DecidableEq

/-- Mirrors the `aws.CreateUserRequest` fields read by `scim.go`. -/
structure CreateUserRequest where
  id : String
  externalId : String
  userName : String
  name : AwsName
  displayName : String
  emails : List AwsEmail
  active : Bool
deriving DecidableEq

/-- Mirrors the `aws.PatchUserRequest` fields read by `scim.go`
(`pur.User.ID` and `pur.Patch`); the patch body is carried around as an
abstract string since `PatchUser` never inspects it. -/
structure PatchUserRequest where
  userId : String
  patch : String
deriving DecidableEq

/-- Outcome of the `CreateUser` validation prefix: either an early error
return, or a Go runtime panic (out-of-range slice index), or the request —
with `Emails[0].Primary` set — that is then sent over HTTP. -/
inductive CreateUserStep where
  | fail (e : AwsErr)
  | panicOutOfRange
  | sendRequest (usr : CreateUserRequest)
deriving DecidableEq

/-- Embeds the validation prefix of `AWSSCIMService.CreateUser`
(`pkg/aws/scim.go`): the nil check, the `DisplayName` / `GivenName` /
`FamilyName` emptiness checks, the `len(usr.Emails) > 1` check, and then
the unconditional `usr.Emails[0].Primary = true`, which in Go panics with
an out-of-range index when `Emails` is empty. -/
def createUserValidation (usr : Option CreateUserRequest) : CreateUserStep :=
  match usr with
  | none => .fail .createUserRequestEmpty
  | some u =>
    if u.displayName = "" then .fail .displayNameEmpty
    else if u.name.givenName = "" then .fail .givenNameEmpty
    else if u.name.familyName = "" then .fail .familyNameEmpty
    else if u.emails.length > 1 then .fail .emailsTooMany
    else
      match u.emails with
      | [] => .panicOutOfRange
      | e :: rest => .sendRequest { u with emails := { e with primary := true } :: rest }

/-- Embeds the request-target computation of `AWSSCIMService.PatchUser`
(`pkg/aws/scim.go`): after the nil and empty-user-id checks, the request
uses HTTP method PATCH and the URL path
`path.Join(basePath, fmt.Sprintf("/Groups/%s", pur.User.ID))`, where
`basePath` is the path component of the service base URL. -/
def patchUserReqTarget (basePath : String) (pur : Option PatchUserRequest) :
    Except AwsErr (String × String) :=
  match pur with
  | none => .error .patchUserRequestEmpty
  | some r =>
    if r.userId = "" then .error .userIDEmpty
    else .ok ("PATCH", goPathJoin basePath ("/Groups/" ++ r.userId))

/-! ## Projection lemmas for the wrapped reconciler outputs -/

theorem gd_create_res (idp state : GroupsResult) :
    (groupsDifferences idp state).1.resources =
      (diffScan Group.name hashGroup idp.resources state.resources).1 := rfl

theorem gd_update_res (idp state : GroupsResult) :
    (groupsDifferences idp state).2.1.resources =
      (diffScan Group.name hashGroup idp.resources state.resources).2.1 := rfl

theorem gd_equal_res (idp state : GroupsResult) :
    (groupsDifferences idp state).2.2.1.resources =
      (diffScan Group.name hashGroup idp.resources state.resources).2.2 := rfl

theorem gd_delete_res (idp state : GroupsResult) :
    (groupsDifferences idp state).2.2.2.resources =
      diffDelete Group.name idp.resources state.resources := rfl

theorem ud_create_res (idp state : UsersResult) :
    (usersDifferences idp state).1.resources =
      (diffScan User.email hashUser idp.resources state.resources).1 := rfl

theorem ud_update_res (idp state : UsersResult) :
    (usersDifferences idp state).2.1.resources =
      (diffScan User.email hashUser idp.resources state.resources).2.1 := rfl

theorem ud_equal_res (idp state : UsersResult) :
    (usersDifferences idp state).2.2.1.resources =
      (diffScan User.email hashUser idp.resources state.resources).2.2 := rfl

theorem ud_delete_res (idp state : UsersResult) :
    (usersDifferences idp state).2.2.2.resources =
      diffDelete User.email idp.resources state.resources := rfl

/-! ## Concrete fixtures from the repository's test tables -/

/-- Current groups snapshot of the test case
"1 equals, 1 update, 1 delete, 1 create" of `Test_groupsDifferences`. -/
def gIdpSample : GroupsResult :=
  ⟨4, [⟨"1", "name1", "1@mail.com", none⟩, ⟨"2", "name2", "22@mail.com", none⟩,
       ⟨"4", "name4", "4@mail.com", none⟩], none⟩

/-- Previous groups snapshot of the test case
"1 equals, 1 update, 1 delete, 1 create" of `Test_groupsDifferences`. -/
def gStateSample : GroupsResult :=
  ⟨3, [⟨"1", "name1", "1@mail.com", none⟩, ⟨"2", "name2", "2@mail.com", none⟩,
       ⟨"3", "name3", "3@mail.com", none⟩], none⟩

/-- Current users snapshot of the test case
"1 equals, 1 update, 1 delete, 1 create" of `Test_usersDifferences`. -/
def uIdpSample : UsersResult :=
  ⟨2, [⟨"1", ⟨"john", "doe"⟩, "john doe", true, "john.doe@email.com", none⟩,
       ⟨"2", ⟨"foonew", "bar"⟩, "foonew bar", true, "foo.bar@email.com", none⟩,
       ⟨"4", ⟨"don", "nadie"⟩, "don nadie", true, "don.nadie@email.com", none⟩], none⟩

/-- Previous users snapshot of the test case
"1 equals, 1 update, 1 delete, 1 create" of `Test_usersDifferences`. -/
def uStateSample : UsersResult :=
  ⟨2, [⟨"1", ⟨"john", "doe"⟩, "john doe", true, "john.doe@email.com", none⟩,
       ⟨"2", ⟨"foo", "bar"⟩, "foo bar", true, "foo.bar@email.com", none⟩,
       ⟨"3", ⟨"donato", "ricupero"⟩, "donato ricupero", true,
        "donato.ricupero@email.com", none⟩], none⟩

/-- Current membership snapshot of the test case "1 equals, 1 create,
1 delete" of `Test_groupsUsersDifferences`: G1 has members {1, 2}, G2 has
member {1}. -/
def guIdpSample : GroupsUsersResult :=
  ⟨2, [⟨2, ⟨"1", "group 1", "g.1@mail.com", none⟩,
         [⟨"1", ⟨"user", "1"⟩, "", false, "u.1@mail.com", none⟩,
          ⟨"2", ⟨"user", "2"⟩, "", false, "u.2@mail.com", none⟩], none⟩,
       ⟨1, ⟨"2", "group 2", "g.2@mail.com", none⟩,
         [⟨"1", ⟨"user", "1"⟩, "", false, "u.1@mail.com", none⟩], none⟩], none⟩

/-- Previous membership snapshot of the test case "1 equals, 1 create,
1 delete" of `Test_groupsUsersDifferences`: G1 has member {1}, G2 has
members {1, 3}. -/
def guStateSample : GroupsUsersResult :=
  ⟨2, [⟨1, ⟨"1", "group 1", "g.1@mail.com", none⟩,
         [⟨"1", ⟨"user", "1"⟩, "", false, "u.1@mail.com", none⟩], none⟩,
       ⟨2, ⟨"2", "group 2", "g.2@mail.com", none⟩,
         [⟨"1", ⟨"user", "1"⟩, "", false, "u.1@mail.com", none⟩,
          ⟨"3", ⟨"user", "3"⟩, "", false, "u.3@mail.com", none⟩], none⟩], none⟩

/-- Groups snapshot of the test case "2 equals" of
`Test_groupsDifferences`. -/
def gEqSample : GroupsResult :=
  ⟨2, [⟨"1", "name1", "1@mail.com", none⟩, ⟨"2", "name2", "2@mail.com", none⟩], none⟩

/-- Users snapshot of the test case "2 equals" of
`Test_usersDifferences`. -/
def uEqSample : UsersResult :=
  ⟨2, [⟨"1", ⟨"john", "doe"⟩, "john doe", true, "john.doe@email.com", none⟩,
       ⟨"2", ⟨"foo", "bar"⟩, "foo bar", true, "foo.bar@email.com", none⟩], none⟩

/-- Membership snapshot of the test case "2 equals" of
`Test_groupsUsersDifferences`. -/
def guEqSample : GroupsUsersResult :=
  ⟨2, [⟨2, ⟨"1", "group 1", "g.1@mail.com", none⟩,
         [⟨"1", ⟨"user", "1"⟩, "", false, "u.1@mail.com", none⟩,
          ⟨"2", ⟨"user", "2"⟩, "", false, "u.2@mail.com", none⟩], none⟩,
       ⟨1, ⟨"2", "group 2", "g.2@mail.com", none⟩,
         [⟨"1", ⟨"user", "1"⟩, "", false, "u.1@mail.com", none⟩], none⟩], none⟩

/-! ## Claim theorems -/

/-- Claim C6: on the input pair where both the current and the previous
snapshot are empty, each reconciler returns all of its output partitions
empty with count 0 — all four partitions for the Group and User
reconcilers, all three for the Membership reconciler. -/
theorem empty_inputs_all_partitions_empty :
    groupsDifferences ⟨0, [], none⟩ ⟨0, [], none⟩ =
      (⟨0, [], none⟩, ⟨0, [], none⟩, ⟨0, [], none⟩, ⟨0, [], none⟩) ∧
    usersDifferences ⟨0, [], none⟩ ⟨0, [], none⟩ =
      (⟨0, [], none⟩, ⟨0, [], none⟩, ⟨0, [], none⟩, ⟨0, [], none⟩) ∧
    groupsUsersDifferences ⟨0, [], none⟩ ⟨0, [], none⟩ =
      (⟨0, [], none⟩, ⟨0, [], none⟩, ⟨0, [], none⟩) := by
  exact ⟨rfl, rfl, rfl⟩

/-- Claim C5, counterexample: on the cited test input ("1 equals, 1 update,
1 delete, 1 create" of `Test_groupsDifferences`) the equal output aggregate
carries the zero fingerprint instead of the fingerprint recomputed over its
resulting sequence, so the aggregate fingerprint is not recomputed. -/
theorem groups_equal_output_fingerprint_not_recomputed :
    (groupsDifferences gIdpSample gStateSample).2.2.1.hashCode ≠
      some (hashGroupsResult (groupsDifferences gIdpSample gStateSample).2.2.1) := by
  decide

/-- Claim C5, amended: every output partition aggregate of the Group, User
and Membership reconcilers has its count equal to the length of its
contained sequence, and its aggregate fingerprint left at the zero value
(not recomputed), as the expected values of the reconciliation tests
demand. -/
theorem partition_outputs_counts_match_fingerprints_unset
    (gi gs : GroupsResult) (ui us : UsersResult) (mi ms : GroupsUsersResult) :
    ((groupsDifferences gi gs).1.items = (groupsDifferences gi gs).1.resources.length ∧
      (groupsDifferences gi gs).1.hashCode = none) ∧
    ((groupsDifferences gi gs).2.1.items = (groupsDifferences gi gs).2.1.resources.length ∧
      (groupsDifferences gi gs).2.1.hashCode = none) ∧
    ((groupsDifferences gi gs).2.2.1.items = (groupsDifferences gi gs).2.2.1.resources.length ∧
      (groupsDifferences gi gs).2.2.1.hashCode = none) ∧
    ((groupsDifferences gi gs).2.2.2.items = (groupsDifferences gi gs).2.2.2.resources.length ∧
      (groupsDifferences gi gs).2.2.2.hashCode = none) ∧
    ((usersDifferences ui us).1.items = (usersDifferences ui us).1.resources.length ∧
      (usersDifferences ui us).1.hashCode = none) ∧
    ((usersDifferences ui us).2.1.items = (usersDifferences ui us).2.1.resources.length ∧
      (usersDifferences ui us).2.1.hashCode = none) ∧
    ((usersDifferences ui us).2.2.1.items = (usersDifferences ui us).2.2.1.resources.length ∧
      (usersDifferences ui us).2.2.1.hashCode = none) ∧
    ((usersDifferences ui us).2.2.2.items = (usersDifferences ui us).2.2.2.resources.length ∧
      (usersDifferences ui us).2.2.2.hashCode = none) ∧
    ((groupsUsersDifferences mi ms).1.items =
        (groupsUsersDifferences mi ms).1.resources.length ∧
      (groupsUsersDifferences mi ms).1.hashCode = none) ∧
    ((groupsUsersDifferences mi ms).2.1.items =
        (groupsUsersDifferences mi ms).2.1.resources.length ∧
      (groupsUsersDifferences mi ms).2.1.hashCode = none) ∧
    ((groupsUsersDifferences mi ms).2.2.items =
        (groupsUsersDifferences mi ms).2.2.resources.length ∧
      (groupsUsersDifferences mi ms).2.2.hashCode = none) := by
  exact ⟨⟨rfl, rfl⟩, ⟨rfl, rfl⟩, ⟨rfl, rfl⟩, ⟨rfl, rfl⟩, ⟨rfl, rfl⟩, ⟨rfl, rfl⟩,
    ⟨rfl, rfl⟩, ⟨rfl, rfl⟩, ⟨rfl, rfl⟩, ⟨rfl, rfl⟩, ⟨rfl, rfl⟩⟩

/-- Claim C3: the Membership reconciler emits a per-group entry into a
partition only when that partition's member subset for the group is
non-empty; on the cited test input (current G1 = {1, 2} and G2 = {1},
previous G1 = {1} and G2 = {1, 3}) it yields create = [G1 → {2}],
equal = [G1 → {1}, G2 → {1}], delete = [G2 → {3}], the same group id
appearing in several partitions with only its relevant member subset. -/
theorem membership_entries_nonempty_subsets :
    (∀ idp state : GroupsUsersResult,
      (∀ e ∈ (groupsUsersDifferences idp state).1.resources, e.resources ≠ []) ∧
      (∀ e ∈ (groupsUsersDifferences idp state).2.1.resources, e.resources ≠ []) ∧
      (∀ e ∈ (groupsUsersDifferences idp state).2.2.resources, e.resources ≠ [])) ∧
    groupsUsersDifferences guIdpSample guStateSample =
      (⟨1, [⟨1, ⟨"1", "group 1", "g.1@mail.com", none⟩,
              [⟨"2", ⟨"user", "2"⟩, "", false, "u.2@mail.com", none⟩], none⟩], none⟩,
       ⟨2, [⟨1, ⟨"1", "group 1", "g.1@mail.com", none⟩,
              [⟨"1", ⟨"user", "1"⟩, "", false, "u.1@mail.com", none⟩], none⟩,
            ⟨1, ⟨"2", "group 2", "g.2@mail.com", none⟩,
              [⟨"1", ⟨"user", "1"⟩, "", false, "u.1@mail.com", none⟩], none⟩], none⟩,
       ⟨1, [⟨1, ⟨"2", "group 2", "g.2@mail.com", none⟩,
              [⟨"3", ⟨"user", "3"⟩, "", false, "u.3@mail.com", none⟩], none⟩], none⟩) := by
  constructor
  · intro idp state
    exact ⟨guScan_create_nonempty idp.resources state.resources,
      guScan_equal_nonempty idp.resources state.resources,
      guDelete_nonempty idp.resources state.resources⟩
  · decide

/-- Witness for claim C3 at the cited test input: the create-partition
entry emitted for group 1 carries a non-empty member subset. -/
theorem membership_entries_nonempty_subsets_witness :
    (⟨1, ⟨"1", "group 1", "g.1@mail.com", none⟩,
       [⟨"2", ⟨"user", "2"⟩, "", false, "u.2@mail.com", none⟩], none⟩ :
        GroupUsers).resources ≠ [] :=
  (membership_entries_nonempty_subsets.1 guIdpSample guStateSample).1
    ⟨1, ⟨"1", "group 1", "g.1@mail.com", none⟩,
      [⟨"2", ⟨"user", "2"⟩, "", false, "u.2@mail.com", none⟩], none⟩
    (by decide)

/-- Claim C1, counterexample: a current and a previous group that share the
same email but differ in name are not correlated — the Group reconciler
keys on the group name, not the email.  At current
`{id:"1", name:"nameA", email:"1@mail.com"}` against previous
`{id:"1", name:"nameB", email:"1@mail.com"}` the update partition is empty
and the pair lands in create and delete, contradicting the claim that a
shared email with differing content always yields an update. -/
theorem groups_shared_email_differing_name_not_update :
    (groupsDifferences ⟨1, [⟨"1", "nameA", "1@mail.com", none⟩], none⟩
        ⟨1, [⟨"1", "nameB", "1@mail.com", none⟩], none⟩).2.1.resources = [] ∧
    (groupsDifferences ⟨1, [⟨"1", "nameA", "1@mail.com", none⟩], none⟩
        ⟨1, [⟨"1", "nameB", "1@mail.com", none⟩], none⟩).1.resources =
      [⟨"1", "nameA", "1@mail.com", none⟩] ∧
    (groupsDifferences ⟨1, [⟨"1", "nameA", "1@mail.com", none⟩], none⟩
        ⟨1, [⟨"1", "nameB", "1@mail.com", none⟩], none⟩).2.2.2.resources =
      [⟨"1", "nameB", "1@mail.com", none⟩] := by
  decide

/-- Claim C1, amended: for every pair of valid group snapshots in which a
current group and a previous group share the natural key — which for
groups is the group name, not the email — but differ in content, including
when only the system-assigned id differs, the Group reconciler places the
current copy in the update partition (exactly once) and places nothing for
that key in create, equal, or delete. -/
theorem groups_key_preserving_change_is_update
    (idp state : GroupsResult) (g p : Group)
    (hui : uniqueKeys Group.name idp.resources)
    (hus : uniqueKeys Group.name state.resources)
    (hg : g ∈ idp.resources) (hp : p ∈ state.resources)
    (hk : p.name = g.name) (hne : hashGroup p ≠ hashGroup g) :
    g ∈ (groupsDifferences idp state).2.1.resources ∧
    countKey Group.name (groupsDifferences idp state).2.1.resources g.name = 1 ∧
    countKey Group.name (groupsDifferences idp state).1.resources g.name = 0 ∧
    countKey Group.name (groupsDifferences idp state).2.2.1.resources g.name = 0 ∧
    countKey Group.name (groupsDifferences idp state).2.2.2.resources g.name = 0 := by
  have hmem : g ∈ (diffScan Group.name hashGroup idp.resources state.resources).2.1 :=
    mem_update_of_changed Group.name hashGroup idp.resources state.resources g p
      hus hg hp hk hne
  have hsum := diffScan_count Group.name hashGroup idp.resources state.resources g.name
  have hone : countKey Group.name idp.resources g.name = 1 :=
    countKey_eq_one Group.name idp.resources g hui hg
  have hpos : 0 < countKey Group.name
      (diffScan Group.name hashGroup idp.resources state.resources).2.1 g.name :=
    countKey_pos_of_mem Group.name _ g hmem
  have hdel : countKey Group.name (diffDelete Group.name idp.resources state.resources)
      g.name = 0 :=
    diffDelete_count_zero Group.name idp.resources state.resources g hg
  simp only [gd_create_res, gd_update_res, gd_equal_res, gd_delete_res]
  exact ⟨hmem, by omega, by omega, by omega, hdel⟩

/-- Witness for the amended claim C1 at the cited test input
"1 update, change the ID" of `Test_groupsDifferences`: current
`{id:"11", name:"name1", email:"1@mail.com"}` against previous
`{id:"1", name:"name1", email:"1@mail.com"}` yields
`update = [{id:"11", name:"name1", email:"1@mail.com"}]` and empty create,
equal and delete. -/
theorem groups_key_preserving_change_is_update_witness :
    groupsDifferences ⟨1, [⟨"11", "name1", "1@mail.com", none⟩], none⟩
        ⟨1, [⟨"1", "name1", "1@mail.com", none⟩], none⟩ =
      (⟨0, [], none⟩, ⟨1, [⟨"11", "name1", "1@mail.com", none⟩], none⟩,
        ⟨0, [], none⟩, ⟨0, [], none⟩) ∧
    (⟨"11", "name1", "1@mail.com", none⟩ : Group) ∈
      (groupsDifferences ⟨1, [⟨"11", "name1", "1@mail.com", none⟩], none⟩
        ⟨1, [⟨"1", "name1", "1@mail.com", none⟩], none⟩).2.1.resources := by
  refine ⟨by decide, ?_⟩
  exact (groups_key_preserving_change_is_update
    ⟨1, [⟨"11", "name1", "1@mail.com", none⟩], none⟩
    ⟨1, [⟨"1", "name1", "1@mail.com", none⟩], none⟩
    ⟨"11", "name1", "1@mail.com", none⟩ ⟨"1", "name1", "1@mail.com", none⟩
    (by decide) (by decide) (by decide) (by decide) (by decide) (by decide)).1

/-- Claim C2: for every valid input pair (no duplicate natural keys), the
Group and User reconcilers place every current-snapshot record in exactly
one of create, update and equal (and never in delete), and every
previous-snapshot record that is not matched by natural key in exactly one
of update and delete (and never in create or equal); placement is counted
by natural key, since the equal partition carries the previous copy of a
matched record. -/
theorem partition_totality
    (gi gs : GroupsResult) (ui us : UsersResult)
    (hgi : uniqueKeys Group.name gi.resources)
    (hgs : uniqueKeys Group.name gs.resources)
    (hui : uniqueKeys User.email ui.resources)
    (hus : uniqueKeys User.email us.resources) :
    (∀ g ∈ gi.resources,
      countKey Group.name (groupsDifferences gi gs).1.resources g.name +
        countKey Group.name (groupsDifferences gi gs).2.1.resources g.name +
        countKey Group.name (groupsDifferences gi gs).2.2.1.resources g.name = 1 ∧
      countKey Group.name (groupsDifferences gi gs).2.2.2.resources g.name = 0) ∧
    (∀ p ∈ gs.resources, (∀ g ∈ gi.resources, g.name ≠ p.name) →
      countKey Group.name (groupsDifferences gi gs).2.1.resources p.name +
        countKey Group.name (groupsDifferences gi gs).2.2.2.resources p.name = 1 ∧
      countKey Group.name (groupsDifferences gi gs).1.resources p.name = 0 ∧
      countKey Group.name (groupsDifferences gi gs).2.2.1.resources p.name = 0) ∧
    (∀ u ∈ ui.resources,
      countKey User.email (usersDifferences ui us).1.resources u.email +
        countKey User.email (usersDifferences ui us).2.1.resources u.email +
        countKey User.email (usersDifferences ui us).2.2.1.resources u.email = 1 ∧
      countKey User.email (usersDifferences ui us).2.2.2.resources u.email = 0) ∧
    (∀ p ∈ us.resources, (∀ u ∈ ui.resources, u.email ≠ p.email) →
      countKey User.email (usersDifferences ui us).2.1.resources p.email +
        countKey User.email (usersDifferences ui us).2.2.2.resources p.email = 1 ∧
      countKey User.email (usersDifferences ui us).1.resources p.email = 0 ∧
      countKey User.email (usersDifferences ui us).2.2.1.resources p.email = 0) := by
  refine ⟨fun g hg => ?_, fun p hp hno => ?_, fun u hu => ?_, fun p hp hno => ?_⟩
  · have hsum := diffScan_count Group.name hashGroup gi.resources gs.resources g.name
    have hone : countKey Group.name gi.resources g.name = 1 :=
      countKey_eq_one Group.name gi.resources g hgi hg
    have hdel : countKey Group.name (diffDelete Group.name gi.resources gs.resources)
        g.name = 0 :=
      diffDelete_count_zero Group.name gi.resources gs.resources g hg
    simp only [gd_create_res, gd_update_res, gd_equal_res, gd_delete_res]
    exact ⟨by omega, hdel⟩
  · have hz := diffScan_count_zero Group.name hashGroup gi.resources gs.resources p.name hno
    have hdel : countKey Group.name (diffDelete Group.name gi.resources gs.resources)
        p.name = countKey Group.name gs.resources p.name :=
      diffDelete_count_unmatched Group.name gi.resources gs.resources p.name hno
    have hone : countKey Group.name gs.resources p.name = 1 :=
      countKey_eq_one Group.name gs.resources p hgs hp
    simp only [gd_create_res, gd_update_res, gd_equal_res, gd_delete_res]
    exact ⟨by omega, hz.1, hz.2.2⟩
  · have hsum := diffScan_count User.email hashUser ui.resources us.resources u.email
    have hone : countKey User.email ui.resources u.email = 1 :=
      countKey_eq_one User.email ui.resources u hui hu
    have hdel : countKey User.email (diffDelete User.email ui.resources us.resources)
        u.email = 0 :=
      diffDelete_count_zero User.email ui.resources us.resources u hu
    simp only [ud_create_res, ud_update_res, ud_equal_res, ud_delete_res]
    exact ⟨by omega, hdel⟩
  · have hz := diffScan_count_zero User.email hashUser ui.resources us.resources p.email hno
    have hdel : countKey User.email (diffDelete User.email ui.resources us.resources)
        p.email = countKey User.email us.resources p.email :=
      diffDelete_count_unmatched User.email ui.resources us.resources p.email hno
    have hone : countKey User.email us.resources p.email = 1 :=
      countKey_eq_one User.email us.resources p hus hp
    simp only [ud_create_res, ud_update_res, ud_equal_res, ud_delete_res]
    exact ⟨by omega, hz.1, hz.2.2⟩

/-- Witness for claim C2 at the cited test inputs ("1 equals, 1 update,
1 delete, 1 create" of `Test_groupsDifferences` and of
`Test_usersDifferences`): the created group "name4" appears exactly once
across create, update and equal and never in delete, and the unmatched
previous user "donato.ricupero@email.com" appears exactly once across
update and delete and never in create or equal. -/
theorem partition_totality_witness :
    (countKey Group.name (groupsDifferences gIdpSample gStateSample).1.resources "name4" +
      countKey Group.name (groupsDifferences gIdpSample gStateSample).2.1.resources "name4" +
      countKey Group.name (groupsDifferences gIdpSample gStateSample).2.2.1.resources "name4"
        = 1 ∧
      countKey Group.name (groupsDifferences gIdpSample gStateSample).2.2.2.resources "name4"
        = 0) ∧
    (countKey User.email (usersDifferences uIdpSample uStateSample).2.1.resources
        "donato.ricupero@email.com" +
      countKey User.email (usersDifferences uIdpSample uStateSample).2.2.2.resources
        "donato.ricupero@email.com" = 1 ∧
      countKey User.email (usersDifferences uIdpSample uStateSample).1.resources
        "donato.ricupero@email.com" = 0 ∧
      countKey User.email (usersDifferences uIdpSample uStateSample).2.2.1.resources
        "donato.ricupero@email.com" = 0) := by
  obtain ⟨hcur, hprevG, hcurU, hprevU⟩ :=
    partition_totality gIdpSample gStateSample uIdpSample uStateSample
      (by decide) (by decide) (by decide) (by decide)
  exact ⟨hcur ⟨"4", "name4", "4@mail.com", none⟩ (by decide),
    hprevU ⟨"3", ⟨"donato", "ricupero"⟩, "donato ricupero", true,
      "donato.ricupero@email.com", none⟩ (by decide) (by decide)⟩

/-- Claim C4: reconciling a valid snapshot against itself yields empty
create, update and delete partitions and an equal partition whose contents
are exactly the records of the snapshot, for the Group and User
reconcilers, and empty create and delete with equal equal to the snapshot
entries for the Membership reconciler (whose entries are rebuilt, so the
snapshot entries are required to be well-formed: counts matching member
list lengths, zero fingerprints, non-empty member lists). -/
theorem self_reconciliation_idempotent
    (sg : GroupsResult) (su : UsersResult) (sm : GroupsUsersResult)
    (hg : uniqueKeys Group.name sg.resources)
    (hu : uniqueKeys User.email su.resources)
    (hm : uniqueKeys (fun gu => gu.group.id) sm.resources)
    (hwf : ∀ m ∈ sm.resources,
      m.items = m.resources.length ∧ m.hashCode = none ∧ m.resources ≠ []) :
    ((groupsDifferences sg sg).1.resources = [] ∧
      (groupsDifferences sg sg).2.1.resources = [] ∧
      (groupsDifferences sg sg).2.2.1.resources = sg.resources ∧
      (groupsDifferences sg sg).2.2.2.resources = []) ∧
    ((usersDifferences su su).1.resources = [] ∧
      (usersDifferences su su).2.1.resources = [] ∧
      (usersDifferences su su).2.2.1.resources = su.resources ∧
      (usersDifferences su su).2.2.2.resources = []) ∧
    ((groupsUsersDifferences sm sm).1.resources = [] ∧
      (groupsUsersDifferences sm sm).2.1.resources = sm.resources ∧
      (groupsUsersDifferences sm sm).2.2.resources = []) := by
  have hgscan : diffScan Group.name hashGroup sg.resources sg.resources =
      ([], [], sg.resources) :=
    diffScan_self Group.name hashGroup sg.resources sg.resources fun g hgm =>
      find?_eq_some_self Group.name sg.resources g g.name hg hgm rfl
  have hgdel : diffDelete Group.name sg.resources sg.resources = [] :=
    diffDelete_eq_nil Group.name sg.resources sg.resources fun p hp => ⟨p, hp, rfl⟩
  have huscan : diffScan User.email hashUser su.resources su.resources =
      ([], [], su.resources) :=
    diffScan_self User.email hashUser su.resources su.resources fun u hum =>
      find?_eq_some_self User.email su.resources u u.email hu hum rfl
  have hudel : diffDelete User.email su.resources su.resources = [] :=
    diffDelete_eq_nil User.email su.resources su.resources fun p hp => ⟨p, hp, rfl⟩
  have hmscan : guScan sm.resources sm.resources = ([], sm.resources) :=
    guScan_self sm.resources sm.resources
      (fun m hmm =>
        find?_eq_some_self (fun gu => gu.group.id) sm.resources m m.group.id hm hmm rfl)
      hwf
  have hmdel : guDelete sm.resources sm.resources = [] :=
    guDelete_self sm.resources sm.resources fun p hp =>
      find?_eq_some_self (fun gu => gu.group.id) sm.resources p p.group.id hm hp rfl
  refine ⟨⟨?_, ?_, ?_, ?_⟩, ⟨?_, ?_, ?_, ?_⟩, ⟨?_, ?_, ?_⟩⟩
  · show (diffScan Group.name hashGroup sg.resources sg.resources).1 = []
    rw [hgscan]
  · show (diffScan Group.name hashGroup sg.resources sg.resources).2.1 = []
    rw [hgscan]
  · show (diffScan Group.name hashGroup sg.resources sg.resources).2.2 = sg.resources
    rw [hgscan]
  · show diffDelete Group.name sg.resources sg.resources = []
    exact hgdel
  · show (diffScan User.email hashUser su.resources su.resources).1 = []
    rw [huscan]
  · show (diffScan User.email hashUser su.resources su.resources).2.1 = []
    rw [huscan]
  · show (diffScan User.email hashUser su.resources su.resources).2.2 = su.resources
    rw [huscan]
  · show diffDelete User.email su.resources su.resources = []
    exact hudel
  · show (guScan sm.resources sm.resources).1 = []
    rw [hmscan]
  · show (guScan sm.resources sm.resources).2 = sm.resources
    rw [hmscan]
  · show guDelete sm.resources sm.resources = []
    exact hmdel

/-- Witness for claim C4 at the cited "2 equals" test snapshots of
`Test_groupsDifferences` and `Test_groupsUsersDifferences` (self against
self): the equal partitions reproduce the snapshots and the other
partitions are empty. -/
theorem self_reconciliation_idempotent_witness :
    ((groupsDifferences gEqSample gEqSample).2.2.1.resources = gEqSample.resources ∧
      (groupsDifferences gEqSample gEqSample).1.resources = []) ∧
    ((groupsUsersDifferences guEqSample guEqSample).2.1.resources = guEqSample.resources ∧
      (groupsUsersDifferences guEqSample guEqSample).1.resources = []) := by
  obtain ⟨hg, hu, hm⟩ :=
    self_reconciliation_idempotent gEqSample uEqSample guEqSample
      (by decide) (by decide) (by decide) (by decide)
  exact ⟨⟨hg.2.2.1, hg.1⟩, ⟨hm.2.1, hm.1⟩⟩

/-- Entries with the same group and member lists equal up to order have the
same fingerprint. -/
theorem hashGroupUsers_congr (a b : GroupUsers)
    (hg : a.group = b.group) (hp : a.resources.Perm b.resources) :
    hashGroupUsers a = hashGroupUsers b := by
  rw [hashGroupUsers, hashGroupUsers, hg]
  have : ((a.resources.map User.id).toFinset : Finset String) =
      (b.resources.map User.id).toFinset :=
    List.toFinset_eq_of_perm _ _ (hp.map User.id)
  rw [this]

/-- Entry lists related entrywise up to member order have equal fingerprint
lists. -/
theorem map_hashGroupUsers_eq_of_forall2 (l₁ l₂ : List GroupUsers)
    (hf : List.Forall₂ (fun a b => a.group = b.group ∧ a.resources.Perm b.resources) l₁ l₂) :
    l₁.map hashGroupUsers = l₂.map hashGroupUsers := by
  induction hf with
  | nil => rfl
  | cons hab hrest ih =>
    simp only [List.map_cons, ih, hashGroupUsers_congr _ _ hab.1 hab.2]

/-- Claim C7: the content hasher is deterministic over structural equality
and insensitive to construction order — structurally-equal groups and users
hash identically, and a group-membership aggregate whose per-group entries
and member lists were accumulated in different orders (as happens when
iterating a Go map) receives the same fingerprint in both runs. -/
theorem hasher_insensitive_to_construction_order :
    (∀ g₁ g₂ : Group, g₁.id = g₂.id → g₁.name = g₂.name → g₁.email = g₂.email →
      hashGroup g₁ = hashGroup g₂) ∧
    (∀ u₁ u₂ : User, u₁.id = u₂.id → u₁.name = u₂.name →
      u₁.displayName = u₂.displayName → u₁.active = u₂.active → u₁.email = u₂.email →
      hashUser u₁ = hashUser u₂) ∧
    (∀ (r₁ r₂ : GroupsUsersResult) (l : List GroupUsers),
      r₁.resources.Perm l →
      List.Forall₂ (fun a b => a.group = b.group ∧ a.resources.Perm b.resources)
        l r₂.resources →
      hashGroupsUsersResult r₁ = hashGroupsUsersResult r₂) := by
  refine ⟨fun g₁ g₂ h1 h2 h3 => ?_, fun u₁ u₂ h1 h2 h3 h4 h5 => ?_,
    fun r₁ r₂ l hperm hf => ?_⟩
  · rw [hashGroup, hashGroup, h1, h2, h3]
  · rw [hashUser, hashUser, h1, h2, h3, h4, h5]
  · rw [hashGroupsUsersResult, hashGroupsUsersResult]
    have h1 : (r₁.resources.map hashGroupUsers).toFinset =
        (l.map hashGroupUsers).toFinset :=
      List.toFinset_eq_of_perm _ _ (hperm.map hashGroupUsers)
    rw [h1, map_hashGroupUsers_eq_of_forall2 l r₂.resources hf]

/-- Witness for claim C7: two concrete membership aggregates whose entries
and member lists are accumulated in opposite orders receive the same
fingerprint. -/
theorem hasher_insensitive_to_construction_order_witness :
    hashGroupsUsersResult
      ⟨2, [⟨2, ⟨"1", "group 1", "g.1@mail.com", none⟩,
             [⟨"1", ⟨"user", "1"⟩, "", false, "u.1@mail.com", none⟩,
              ⟨"2", ⟨"user", "2"⟩, "", false, "u.2@mail.com", none⟩], none⟩,
           ⟨1, ⟨"2", "group 2", "g.2@mail.com", none⟩,
             [⟨"3", ⟨"user", "3"⟩, "", false, "u.3@mail.com", none⟩], none⟩], none⟩ =
    hashGroupsUsersResult
      ⟨2, [⟨1, ⟨"2", "group 2", "g.2@mail.com", none⟩,
             [⟨"3", ⟨"user", "3"⟩, "", false, "u.3@mail.com", none⟩], none⟩,
           ⟨2, ⟨"1", "group 1", "g.1@mail.com", none⟩,
             [⟨"2", ⟨"user", "2"⟩, "", false, "u.2@mail.com", none⟩,
              ⟨"1", ⟨"user", "1"⟩, "", false, "u.1@mail.com", none⟩], none⟩], none⟩ := by
  refine hasher_insensitive_to_construction_order.2.2 _ _
    [⟨1, ⟨"2", "group 2", "g.2@mail.com", none⟩,
       [⟨"3", ⟨"user", "3"⟩, "", false, "u.3@mail.com", none⟩], none⟩,
     ⟨2, ⟨"1", "group 1", "g.1@mail.com", none⟩,
       [⟨"1", ⟨"user", "1"⟩, "", false, "u.1@mail.com", none⟩,
        ⟨"2", ⟨"user", "2"⟩, "", false, "u.2@mail.com", none⟩], none⟩]
    (by decide) ?_
  refine List.Forall₂.cons ⟨rfl, by decide⟩ ?_
  exact List.Forall₂.cons ⟨rfl, by decide⟩ List.Forall₂.nil

/-- Claim C8: the content hasher ignores the entity's own fingerprint
field — for every entity or aggregate the computed fingerprint is the same
whether its `hashCode` field is the zero value or holds any previously
computed fingerprint; consequently recomputing and storing the fingerprint
of a users aggregate whose `hashCode` is already set (as
`GetUsersAndGroupsUsers` does after `GetUsers` has set it) leaves the
fingerprint unchanged. -/
theorem hasher_ignores_fingerprint_field :
    (∀ (g : Group) (fp : Option GroupFp),
      hashGroup { g with hashCode := fp } = hashGroup g) ∧
    (∀ (u : User) (fp : Option UserFp),
      hashUser { u with hashCode := fp } = hashUser u) ∧
    (∀ (gu : GroupUsers) (fp : Option GroupUsersFp),
      hashGroupUsers { gu with hashCode := fp } = hashGroupUsers gu) ∧
    (∀ (r : GroupsResult) (fp : Option (List GroupFp)),
      hashGroupsResult { r with hashCode := fp } = hashGroupsResult r) ∧
    (∀ (r : UsersResult) (fp : Option (List UserFp)),
      hashUsersResult { r with hashCode := fp } = hashUsersResult r) ∧
    (∀ (r : GroupsUsersResult) (fp : Option (Finset GroupUsersFp)),
      hashGroupsUsersResult { r with hashCode := fp } = hashGroupsUsersResult r) ∧
    (∀ r : UsersResult,
      hashUsersResult { r with hashCode := some (hashUsersResult r) } =
        hashUsersResult r) := by
  exact ⟨fun g fp => rfl, fun u fp => rfl, fun gu fp => rfl, fun r fp => rfl,
    fun r fp => rfl, fun r fp => rfl, fun r => rfl⟩

/-! ## Path lemmas for the PatchUser request target -/

theorem splitOnSlash_no_slash (cs : List Char) (h : '/' ∉ cs) :
    splitOnSlash cs = [cs] := by
  induction cs with
  | nil => rfl
  | cons c rest ih =>
    have hc : c ≠ '/' := fun hcc => h (hcc ▸ List.mem_cons_self c rest)
    have hrest : '/' ∉ rest := fun hm => h (List.mem_cons_of_mem c hm)
    rw [splitOnSlash, if_neg hc, ih hrest]

theorem splitOnSlash_groups (cs : List Char) (h : '/' ∉ cs) :
    splitOnSlash ('/' :: 'G' :: 'r' :: 'o' :: 'u' :: 'p' :: 's' :: '/' :: cs) =
      [[], ['G', 'r', 'o', 'u', 'p', 's'], cs] := by
  simp [splitOnSlash, splitOnSlash_no_slash cs h]

theorem cleanComps_groups (cs : List Char) (h1 : cs ≠ []) (h2 : '.' ∉ cs) :
    cleanComps true [] [[], ['G', 'r', 'o', 'u', 'p', 's'], cs] =
      [['G', 'r', 'o', 'u', 'p', 's'], cs] := by
  have hd1 : cs ≠ ['.'] := fun hc => h2 (hc ▸ List.mem_cons_self '.' [])
  have hd2 : cs ≠ ['.', '.'] := fun hc => h2 (hc ▸ List.mem_cons_self '.' ['.'])
  simp [cleanComps, h1, hd1, hd2]

theorem goPathCleanL_groups (cs : List Char) (h1 : cs ≠ []) (hs : '/' ∉ cs)
    (hd : '.' ∉ cs) :
    goPathCleanL ('/' :: 'G' :: 'r' :: 'o' :: 'u' :: 'p' :: 's' :: '/' :: cs) =
      '/' :: 'G' :: 'r' :: 'o' :: 'u' :: 'p' :: 's' :: '/' :: cs := by
  rw [goPathCleanL]
  simp [splitOnSlash_groups cs hs, cleanComps_groups cs h1 hd, joinComps]

theorem goPathClean_groups (id : String) (h1 : id ≠ "") (hs : '/' ∉ id.data)
    (hd : '.' ∉ id.data) :
    goPathClean ("/Groups/" ++ id) = "/Groups/" ++ id := by
  have hne : id.data ≠ [] := fun hc => h1 (String.ext hc)
  have hdata : ("/Groups/" ++ id).data =
      '/' :: 'G' :: 'r' :: 'o' :: 'u' :: 'p' :: 's' :: '/' :: id.data := by
    rw [String.data_append]
    rfl
  rw [goPathClean, hdata, goPathCleanL_groups id.data hne hs hd]
  exact String.ext (by rw [hdata])

/-- Claim C9: for every `PatchUserRequest` that passes validation (non-nil
request, non-empty user id whose characters contain no slash or dot, as AWS
SCIM user ids do), `AWSSCIMService.PatchUser` sends its HTTP PATCH request
to the path `/Groups/{userID}` under the service base URL — the Groups
collection path with the user's id — and not to `/Users/{userID}` (or any
other path under the Users collection). -/
theorem patchUser_targets_groups_collection
    (r : PatchUserRequest) (base : String)
    (h1 : r.userId ≠ "") (hs : '/' ∉ r.userId.data) (hd : '.' ∉ r.userId.data) :
    patchUserReqTarget base (some r) =
      Except.ok ("PATCH", goPathJoin base ("/Groups/" ++ r.userId)) ∧
    patchUserReqTarget "" (some r) = Except.ok ("PATCH", "/Groups/" ++ r.userId) ∧
    ∀ s : String, patchUserReqTarget "" (some r) ≠
      Except.ok ("PATCH", "/Users/" ++ s) := by
  have hne2 : ("/Groups/" ++ r.userId) ≠ "" := by
    intro hc
    have := congrArg String.data hc
    rw [String.data_append] at this
    exact absurd this (by simp)
  have hjoin : goPathJoin "" ("/Groups/" ++ r.userId) = "/Groups/" ++ r.userId := by
    rw [goPathJoin, if_pos rfl, if_neg hne2]
    exact goPathClean_groups r.userId h1 hs hd
  have hgen : ∀ b : String, patchUserReqTarget b (some r) =
      Except.ok ("PATCH", goPathJoin b ("/Groups/" ++ r.userId)) := by
    intro b
    rw [patchUserReqTarget]
    simp [h1]
  have hbase : patchUserReqTarget "" (some r) =
      Except.ok ("PATCH", "/Groups/" ++ r.userId) := by
    rw [hgen "", hjoin]
  refine ⟨hgen base, hbase, fun s heq => ?_⟩
  rw [hbase] at heq
  have h3 : ("/Groups/" ++ r.userId) = "/Users/" ++ s := by
    simpa using heq
  have h4 := congrArg String.data h3
  rw [String.data_append, String.data_append] at h4
  have h5 : ("/Groups/").data = ['/', 'G', 'r', 'o', 'u', 'p', 's', '/'] := rfl
  have h6 : ("/Users/").data = ['/', 'U', 's', 'e', 'r', 's', '/'] := rfl
  rw [h5, h6] at h4
  simp at h4

/-- Witness for claim C9 at a concrete request: the PATCH for user id
"abc123" goes to "/Groups/abc123" and not to "/Users/abc123". -/
theorem patchUser_targets_groups_collection_witness :
    patchUserReqTarget "" (some ⟨"abc123", "patchbody"⟩) =
      Except.ok ("PATCH", "/Groups/abc123") ∧
    patchUserReqTarget "" (some ⟨"abc123", "patchbody"⟩) ≠
      Except.ok ("PATCH", "/Users/abc123") := by
  obtain ⟨h1, h2, h3⟩ := patchUser_targets_groups_collection ⟨"abc123", "patchbody"⟩ ""
    (by decide) (by decide) (by decide)
  exact ⟨h2, h3 "abc123"⟩

/-- Claim C10: for every non-nil `CreateUserRequest` whose display name,
given name and family name are non-empty but whose email list is empty,
the validation of `AWSSCIMService.CreateUser` — which rejects only requests
with more than one email before unconditionally writing
`usr.Emails[0].Primary` — reaches an out-of-range index access (a Go
runtime panic) instead of returning an error. -/
theorem createUser_empty_emails_panics (u : CreateUserRequest)
    (h1 : u.displayName ≠ "") (h2 : u.name.givenName ≠ "")
    (h3 : u.name.familyName ≠ "") (h4 : u.emails = []) :
    createUserValidation (some u) = CreateUserStep.panicOutOfRange ∧
    ∀ e : AwsErr, createUserValidation (some u) ≠ CreateUserStep.fail e := by
  have hmain : createUserValidation (some u) = CreateUserStep.panicOutOfRange := by
    rw [createUserValidation]
    rw [if_neg h1, if_neg h2, if_neg h3]
    simp [h4]
  exact ⟨hmain, fun e => by rw [hmain]; simp⟩

/-- Witness for claim C10 at a concrete request with empty emails (the
`TestCreateUser` request of `pkg/aws/scim_test.go` with its email removed):
the validation reaches the out-of-range access and in particular does not
return the too-many-emails error. -/
theorem createUser_empty_emails_panics_witness :
    createUserValidation
        (some ⟨"1", "1", "user.1@mail.com", ⟨"1", "test"⟩, "user 1", [], true⟩) =
      CreateUserStep.panicOutOfRange ∧
    createUserValidation
        (some ⟨"1", "1", "user.1@mail.com", ⟨"1", "test"⟩, "user 1", [], true⟩) ≠
      CreateUserStep.fail AwsErr.emailsTooMany := by
  obtain ⟨h1, h2⟩ := createUser_empty_emails_panics
    ⟨"1", "1", "user.1@mail.com", ⟨"1", "test"⟩, "user 1", [], true⟩
    (by decide) (by decide) (by decide) rfl
  exact ⟨h1, h2 AwsErr.emailsTooMany⟩

end IdpScimSync
